import Mathlib

/-!
Verification of the disposable-email-cdk infrastructure declaration and of
the disposable mailbox backend it implies.

The repository declares the infrastructure (tables, bucket, receipt rule,
API gateway, event schedule, IAM grants) in TypeScript CDK code; the five
handler functions are referenced only by asset path and their code is not
part of the repository.  Definitions below fall in two groups:

* embeddings of the CDK declarations themselves (route table, grants,
  receipt-rule action list, cleanup schedule, constants), translated
  directly from the source files; and
* models of the handler behaviour, each marked `Modelled from the spec:`,
  faithful to the specification that stands in for the missing handler
  sources.
-/

namespace DisposableEmail

/-- The eight backend handler functions declared in
`DisposableEmailLambdaConstruct` (src/lib/Constructs/DisposableEmailLambda.ts). -/
inductive Handler where
  | createEmail
  | getEmailFile
  | getEmailsList
  | sendEmail
  | changeAddressSettings
  | incomingMailCheck
  | storeEmail
  | cleanUp
deriving DecidableEq, Repr

/-- The stateful resources declared in `StorageConstruct`
(src/lib/Constructs/Storage.ts): three DynamoDB tables and one S3 bucket. -/
inductive Resource where
  | addressesTable
  | emailsTable
  | replyAddressesTable
  | emailBucket
deriving DecidableEq, Repr

/-- Access levels granted to handlers in
src/lib/Constructs/DisposableEmailLambda.ts (grantReadData,
grantWriteData, grantReadWriteData, grantRead, grantReadWrite, grantDelete). -/
inductive Access where
  | readData
  | writeData
  | readWriteData
  | read
  | readWrite
  | deleteObjects
deriving DecidableEq, Repr

/-- One IAM grant: a handler is given an access level on a resource. -/
structure Grant where
  grantee : Handler
  resource : Resource
  access : Access
deriving DecidableEq, Repr

/-- The grants declared in src/lib/Constructs/DisposableEmailLambda.ts,
in source order. -/
def grants : List Grant :=
  [ ⟨.incomingMailCheck, .addressesTable, .readData⟩,
    ⟨.incomingMailCheck, .replyAddressesTable, .readData⟩,
    ⟨.storeEmail, .replyAddressesTable, .readWriteData⟩,
    ⟨.storeEmail, .emailBucket, .readWrite⟩,
    ⟨.storeEmail, .emailsTable, .writeData⟩,
    ⟨.storeEmail, .addressesTable, .readData⟩,
    ⟨.createEmail, .addressesTable, .readWriteData⟩,
    ⟨.getEmailsList, .addressesTable, .readData⟩,
    ⟨.getEmailsList, .emailsTable, .readData⟩,
    ⟨.getEmailFile, .emailsTable, .readWriteData⟩,
    ⟨.getEmailFile, .addressesTable, .readData⟩,
    ⟨.getEmailFile, .emailBucket, .read⟩,
    ⟨.cleanUp, .replyAddressesTable, .readWriteData⟩,
    ⟨.cleanUp, .addressesTable, .readWriteData⟩,
    ⟨.cleanUp, .emailsTable, .readWriteData⟩,
    ⟨.cleanUp, .emailBucket, .deleteObjects⟩,
    ⟨.sendEmail, .addressesTable, .readData⟩,
    ⟨.sendEmail, .emailsTable, .readData⟩,
    ⟨.changeAddressSettings, .addressesTable, .readWriteData⟩ ]

/-- Whether an access level permits mutation of the resource. -/
def allowsWrite : Access → Bool
  | .writeData => true
  | .readWriteData => true
  | .readWrite => true
  | .deleteObjects => true
  | .readData => false
  | .read => false

/-- Whether handler `h` holds any grant allowing it to mutate resource `r`. -/
def canWrite (h : Handler) (r : Resource) : Bool :=
  grants.any fun g => g.grantee == h && g.resource == r && allowsWrite g.access

/-! ### Constants (src/lib/constants.ts) -/

/-- Default mailbox lifetime in seconds, `MAILBOX_TTL = 60 * 60 * 24`. -/
def MAILBOX_TTL : Nat := 60 * 60 * 24

/-! ### DynamoDB key schemas (src/lib/Constructs/Storage.ts) -/

/-- Key schema of a DynamoDB table: a partition key attribute and an
optional sort key attribute. -/
structure TableSchema where
  partitionKeyName : String
  sortKeyName : Option String
deriving DecidableEq, Repr

/-- Key schema of `disposableAddressesTable`: partition key `address`. -/
def disposableAddressesTable : TableSchema := ⟨"address", none⟩

/-- Key schema of `disposableEmailsTable`: partition key `destination`,
sort key `messageId`. -/
def disposableEmailsTable : TableSchema := ⟨"destination", some "messageId"⟩

/-- Key schema of `disposableReplyAddressesTable`: partition key
`proxyAddress`. -/
def disposableReplyAddressesTable : TableSchema := ⟨"proxyAddress", none⟩

/-! ### The API gateway (src/lib/Constructs/AuthorisingApi.ts) -/

/-- HTTP methods used by the five integration methods. -/
inductive HttpMethod where
  | get
  | post
deriving DecidableEq, Repr

/-- Authorization type carried in method options. -/
inductive AuthorizationType where
  | none
  | cognito
deriving DecidableEq, Repr

/-- An authorizer as configured on the gateway; the declaration
`CognitoUserPoolsAuthorizer` passes `resultsCacheTtl: Duration.seconds(0)`. -/
structure Authorizer where
  resultsCacheTtlSeconds : Nat
deriving DecidableEq, Repr

/-- Method options: authorization type plus the attached authorizer. -/
structure MethodOptions where
  authorizationType : AuthorizationType
  authorizer : Authorizer
deriving DecidableEq, Repr

/-- One method with a Lambda integration on the gateway: HTTP method, path
(as the declared resource segments), backing handler, and the per-method
options (the source passes none, so each method falls back to the API
default). -/
structure Route where
  method : HttpMethod
  path : List String
  handler : Handler
  options : Option MethodOptions
deriving DecidableEq, Repr

/-- The REST API: default method options plus the methods added so far. -/
structure RestApi where
  defaultMethodOptions : MethodOptions
  routes : List Route
deriving DecidableEq, Repr

/-- `addMethod` on a resource: appends a method with a Lambda integration;
no per-method options are supplied anywhere in the source. -/
def addMethod (api : RestApi) (m : HttpMethod) (path : List String)
    (h : Handler) : RestApi :=
  { api with routes := api.routes ++ [⟨m, path, h, none⟩] }

/-- The `cognitoAuthorizer` declaration: results cache TTL of 0 seconds. -/
def cognitoAuthorizer : Authorizer := ⟨0⟩

/-- The gateway declared in `AuthorisingApiConstruct`, built exactly in
source order: default method options use the Cognito authorizer; then
GET create, GET destination, POST destination, GET destination/messageId,
POST send (path parameters written without their surrounding braces here). -/
def authorisingApi : RestApi :=
  let api : RestApi := ⟨⟨.cognito, cognitoAuthorizer⟩, []⟩
  let api := addMethod api .get ["create"] .createEmail
  let api := addMethod api .get ["{destination}"] .getEmailsList
  let api := addMethod api .post ["{destination}"] .changeAddressSettings
  let api := addMethod api .get ["{destination}", "{messageId}"] .getEmailFile
  let api := addMethod api .post ["send"] .sendEmail
  api

/-- Options in force for a route: its own options if supplied, otherwise
the API default (CDK `defaultMethodOptions` behaviour). -/
def effectiveOptions (api : RestApi) (r : Route) : MethodOptions :=
  r.options.getD api.defaultMethodOptions

/-! ### The SES receipt rule (lib/disposable-email-cdk-stack.ts) -/

/-- Invocation type of a Lambda receipt-rule action. -/
inductive InvocationType where
  | event
  | requestResponse
deriving DecidableEq, Repr

/-- One action of the SES receipt rule: either invoke a Lambda, or store
the raw message to the bucket (optionally notifying an SNS topic). -/
inductive RuleAction where
  | lambdaAction (fn : Handler) (invocation : InvocationType)
  | s3Action (bucket : Resource) (notifiesTopic : Bool)
deriving DecidableEq, Repr

/-- The action list of the single receipt rule in the stack, in source
order: the intake-check Lambda invoked request-response, then the S3
action on the email bucket with the notification topic attached. -/
def receiptRuleActions : List RuleAction :=
  [ .lambdaAction .incomingMailCheck .requestResponse,
    .s3Action .emailBucket true ]

/-! ### The cleanup schedule (lib/disposable-email-cdk-stack.ts) -/

/-- An EventBridge rule: a schedule expression and a Lambda target. -/
structure EventRule where
  scheduleExpression : String
  target : Handler
deriving DecidableEq, Repr

/-- Rendering of a constant-rate schedule expression in minutes. -/
def rateExpressionMinutes (n : Nat) : String :=
  "rate(" ++ toString n ++ " minutes)"

/-- The `cleanupRule` declaration: expression `rate(30 minutes)`, target
`cleanUpLambda`. -/
def cleanupRule : EventRule := ⟨"rate(30 minutes)", .cleanUp⟩

/-! ### Data model

Records as the spec describes them; the key structure mirrors the
DynamoDB key schemas above. -/

/-- A Disposable Address record in the addresses table, keyed by
`address`. -/
structure AddressRecord where
  address : String
  ownerToken : String
  createdAt : Nat
  expiresAt : Nat
deriving DecidableEq, Repr

/-- A Stored Email row in the emails table, keyed by the composite
(`destination`, `messageId`). -/
structure StoredEmail where
  destination : String
  messageId : String
  sender : String
  subject : String
  receivedAt : Nat
  rawContentRef : String
deriving DecidableEq, Repr

/-- A Reply-Proxy row in the reply-addresses table, keyed by
`proxyAddress`. -/
structure ReplyProxy where
  proxyAddress : String
  realExternalAddress : String
  parentDisposableAddress : String
deriving DecidableEq, Repr

/-- The composite key of a Stored Email row, per the
`disposableEmailsTable` schema. -/
structure EmailKey where
  destination : String
  messageId : String
deriving DecidableEq, Repr

/-- Key of a Stored Email row. -/
def StoredEmail.key (e : StoredEmail) : EmailKey :=
  ⟨e.destination, e.messageId⟩

/-- Whole backing state: the three tables and the bucket (object keys). -/
@[ext]
structure SystemState where
  addresses : List AddressRecord
  emails : List StoredEmail
  replyAddresses : List ReplyProxy
  bucket : List String
deriving DecidableEq, Repr

/-- Modelled from the spec: an EventBridge constant-rate schedule fires
purely as a function of time; it reads none of the tables or the bucket,
so its firing decision ignores the backing state entirely. -/
def scheduleFires (rateMinutes minute : Nat) (_s : SystemState) : Bool :=
  minute % rateMinutes == 0

/-- Lookup of an address record by its partition key (first row whose
`address` attribute equals the key). -/
def findAddr : List AddressRecord → String → Option AddressRecord
  | [], _ => none
  | r :: rest, a => if r.address == a then some r else findAddr rest a

/-- Lookup of a Stored Email row by its composite key. -/
def findEmail : List StoredEmail → EmailKey → Option StoredEmail
  | [], _ => none
  | e :: rest, k => if e.key == k then some e else findEmail rest k

/-- Lookup of a reply-proxy row by its partition key. -/
def findProxy : List ReplyProxy → String → Option ReplyProxy
  | [], _ => none
  | r :: rest, p => if r.proxyAddress == p then some r else findProxy rest p

/-- No two address records share an `address` (partition-key uniqueness of
`disposableAddressesTable`). -/
def uniqueAddrs : List AddressRecord → Bool
  | [] => true
  | r :: rest => (findAddr rest r.address).isNone && uniqueAddrs rest

/-- No two Stored Email rows share a (`destination`, `messageId`) pair
(composite-key uniqueness of `disposableEmailsTable`). -/
def uniqueEmailKeys : List StoredEmail → Bool
  | [] => true
  | e :: rest => (findEmail rest e.key).isNone && uniqueEmailKeys rest

/-! ### Mailbox Store operations -/

/-- Result of a Mailbox Store `put`. -/
inductive PutResult where
  | ok (table : List StoredEmail)
  | conflict
deriving DecidableEq, Repr

/-- Modelled from the spec: Mailbox Store `put` (the handler
src/StoreEmailFunction is not under src/).  A conditional insert on the
composite key: if a row with the same (destination, messageId) already
exists the call fails with Conflict and the table is unchanged; otherwise
the new row is inserted. -/
def put (table : List StoredEmail) (e : StoredEmail) : PutResult :=
  match findEmail table e.key with
  | some _ => .conflict
  | none => .ok (e :: table)

/-- The emails table after a put: the new table on success, the old table
untouched on Conflict (a conditional write that fails leaves the row as
it was). -/
def putState (table : List StoredEmail) (e : StoredEmail) : List StoredEmail :=
  match put table e with
  | .ok t => t
  | .conflict => table

/-! ### Address Registry operations -/

/-- Static configuration: the allowed email domain and the mailbox TTL,
as passed to the Lambda construct from constants.ts. -/
structure Config where
  domain : String
  mailboxTtl : Nat
deriving DecidableEq, Repr

/-- The configuration the stack passes: `EMAIL_DOMAIN_NAME` (left empty in
constants.ts) and `MAILBOX_TTL`. -/
def stackConfig : Config := ⟨"", MAILBOX_TTL⟩

/-- Result of Address Registry `create`. -/
inductive CreateResult where
  | ok (record : AddressRecord) (owned : List AddressRecord)
      (reg : List AddressRecord)
  | validationError
  | collision
deriving DecidableEq, Repr

/-- Modelled from the spec: Address Registry `create` (the handler
src/CreateEmailFunction is not under src/).  Rejects a domain constraint
that does not match the configured domain; otherwise forms the address
from the randomly generated local part (passed in as `localPart`; the
generator retries on collision, surfaced here as the `collision` result),
persists the record with `expiresAt = now + mailboxTtl`, and returns the
record together with the full current list of records owned by
`ownerToken`. -/
def create (cfg : Config) (reg : List AddressRecord)
    (ownerToken domainConstraint localPart : String) (now : Nat) :
    CreateResult :=
  if domainConstraint == cfg.domain then
    let addr := localPart ++ "@" ++ cfg.domain
    match findAddr reg addr with
    | some _ => .collision
    | none =>
      let record : AddressRecord := ⟨addr, ownerToken, now, now + cfg.mailboxTtl⟩
      let reg2 := record :: reg
      .ok record (reg2.filter fun r => r.ownerToken == ownerToken) reg2
  else .validationError

/-- Extend the expiry of the record with the given address by `n`
(identity on every other record). -/
def extendTtl : List AddressRecord → String → Nat → List AddressRecord
  | [], _, _ => []
  | r :: rest, a, n =>
    if r.address == a then { r with expiresAt := r.expiresAt + n } :: extendTtl rest a n
    else r :: extendTtl rest a n

/-- Remove the record with the given address; idempotent, removing a
missing address is not an error. -/
def deleteAddr : List AddressRecord → String → List AddressRecord
  | [], _ => []
  | r :: rest, a =>
    if r.address == a then deleteAddr rest a else r :: deleteAddr rest a

/-- A settings-change payload: extend the TTL or delete the address. -/
inductive Settings where
  | extendTtlBy (n : Nat)
  | remove
deriving DecidableEq, Repr

/-- Result of `updateSettings`. -/
inductive UpdateResult where
  | ok (reg : List AddressRecord)
  | notFound
deriving DecidableEq, Repr

/-- Modelled from the spec: Address Registry `updateSettings` (the handler
src/ChangeAddressSettingsFunction is not under src/).  Fails with NotFound
when the address does not exist; otherwise extends `expiresAt` or removes
the record immediately. -/
def updateSettings (reg : List AddressRecord) (a : String) (s : Settings) :
    UpdateResult :=
  match findAddr reg a with
  | none => .notFound
  | some _ =>
    match s with
    | .extendTtlBy n => .ok (extendTtl reg a n)
    | .remove => .ok (deleteAddr reg a)

/-- A mutating Address Registry operation, used to range over all
reachable registry transitions. -/
inductive RegOp where
  | createOp (ownerToken domainConstraint localPart : String) (now : Nat)
  | updateOp (a : String) (s : Settings)
  | deleteOp (a : String)
deriving DecidableEq, Repr

/-- The registry after an operation (unchanged when the operation fails). -/
def applyRegOp (cfg : Config) (reg : List AddressRecord) : RegOp → List AddressRecord
  | .createOp owner constraint localPart now =>
    match create cfg reg owner constraint localPart now with
    | .ok _ _ reg2 => reg2
    | .validationError => reg
    | .collision => reg
  | .updateOp a s =>
    match updateSettings reg a s with
    | .ok reg2 => reg2
    | .notFound => reg
  | .deleteOp a => deleteAddr reg a

/-! ### Retention Sweeper cascade -/

/-- Modelled from the spec: Mailbox Store `deleteAll` as the sweeper runs
it (the handler src/CleanUpFunction is not under src/): removes every
Stored Email row whose destination is the expired address, together with
the raw-content objects those rows reference in the bucket; idempotent. -/
def deleteAllEmails (s : SystemState) (a : String) : SystemState :=
  { s with
    emails := s.emails.filter fun e => !(e.destination == a),
    bucket := s.bucket.filter fun k =>
      !(s.emails.any fun e => e.destination == a && e.rawContentRef == k) }

/-- Modelled from the spec: Reply-Proxy Registry `deleteByParent` (the
handler src/CleanUpFunction is not under src/): removes every proxy
mapping whose parent is the expired address; idempotent. -/
def deleteByParent (s : SystemState) (a : String) : SystemState :=
  { s with replyAddresses :=
      s.replyAddresses.filter fun p => !(p.parentDisposableAddress == a) }

/-- Modelled from the spec: Address Registry `delete` run by the sweeper
(the handler src/CleanUpFunction is not under src/): removes the address
record itself; idempotent. -/
def deleteAddressStep (s : SystemState) (a : String) : SystemState :=
  { s with addresses := deleteAddr s.addresses a }

/-- The first `k` steps of the per-address cascade, in the order the spec
fixes: emails and raw content first, then proxy mappings, then the
address record (`k ≥ 3` is the whole cascade). -/
def cascadePrefix (s : SystemState) (a : String) : Nat → SystemState
  | 0 => s
  | 1 => deleteAllEmails s a
  | 2 => deleteByParent (deleteAllEmails s a) a
  | _ + 3 => deleteAddressStep (deleteByParent (deleteAllEmails s a) a) a

/-- The complete per-address cascade of one sweeper run. -/
def cascade (s : SystemState) (a : String) : SystemState :=
  cascadePrefix s a 3

/-! ### Inbound mail flow -/

/-- Observable events of one inbound message flowing through the system. -/
inductive MailEvent where
  | filterInvoked
  | rawStored
  | pipelineNotified
  | metadataPut
  | forwardAttempted
deriving DecidableEq, Repr

/-- Modelled from the spec: SES receipt-rule processing (the inbound mail
transport of section 6).  Actions run in declaration order; a Lambda
action invoked request-response runs synchronously and, when its handler
rejects the message, stops the rule so no later action runs; the S3
action deposits the raw content into the bucket and then notifies its
topic when one is attached. -/
def runActions (accept : Bool) : List RuleAction → List MailEvent
  | [] => []
  | .lambdaAction _ .requestResponse :: rest =>
    .filterInvoked :: (if accept then runActions accept rest else [])
  | .lambdaAction _ .event :: rest => .filterInvoked :: runActions accept rest
  | .s3Action _ notifies :: rest =>
    .rawStored ::
      ((if notifies then [.pipelineNotified] else []) ++ runActions accept rest)

/-- Modelled from the spec: the Mail Storage Pipeline body (the handler
src/StoreEmailFunction is not under src/).  For a disposable destination
it persists metadata via Mailbox Store put; for a reply-proxy destination
it resolves the real address and attempts the forward. -/
def pipelineEvents (isProxy : Bool) : List MailEvent :=
  if isProxy then [.forwardAttempted] else [.metadataPut]

/-- End-to-end trace of one inbound message: the receipt-rule actions as
declared in the stack, followed by the pipeline, which runs only if the
topic notification was emitted (the pipeline Lambda is subscribed to the
SNS topic of the S3 action). -/
def mailFlowTrace (accept isProxy : Bool) : List MailEvent :=
  let transport := runActions accept receiptRuleActions
  transport ++
    (if transport.contains .pipelineNotified then pipelineEvents isProxy else [])

/-! ### Writes and the grant discipline -/

/-- A mutation of the backing state, each targeting one resource. -/
inductive WriteOp where
  | putAddress (r : AddressRecord)
  | removeAddress (a : String)
  | putEmail (e : StoredEmail)
  | removeEmails (dest : String)
  | putReply (p : ReplyProxy)
  | removeReplies (parent : String)
  | putObject (k : String)
  | removeObject (k : String)
deriving DecidableEq, Repr

/-- The resource a write targets. -/
def WriteOp.target : WriteOp → Resource
  | .putAddress _ => .addressesTable
  | .removeAddress _ => .addressesTable
  | .putEmail _ => .emailsTable
  | .removeEmails _ => .emailsTable
  | .putReply _ => .replyAddressesTable
  | .removeReplies _ => .replyAddressesTable
  | .putObject _ => .emailBucket
  | .removeObject _ => .emailBucket

/-- Effect of one write on the backing state. -/
def applyWrite (s : SystemState) : WriteOp → SystemState
  | .putAddress r => { s with addresses := r :: s.addresses }
  | .removeAddress a => { s with addresses := deleteAddr s.addresses a }
  | .putEmail e => { s with emails := e :: s.emails }
  | .removeEmails d =>
    { s with emails := s.emails.filter fun e => !(e.destination == d) }
  | .putReply p => { s with replyAddresses := p :: s.replyAddresses }
  | .removeReplies a =>
    { s with replyAddresses :=
        s.replyAddresses.filter fun p => !(p.parentDisposableAddress == a) }
  | .putObject k => { s with bucket := k :: s.bucket }
  | .removeObject k => { s with bucket := s.bucket.filter fun x => !(x == k) }

/-- Effect of a sequence of writes. -/
def applyWrites (s : SystemState) (ops : List WriteOp) : SystemState :=
  ops.foldl applyWrite s

/-- An invocation of handler `h` may only perform writes covered by its
IAM grants. -/
def permittedRun (h : Handler) (ops : List WriteOp) : Bool :=
  ops.all fun op => canWrite h op.target

/-- A small concrete backing state: one disposable address with one
stored email (whose raw content is the single bucket object) and one
reply-proxy mapping under that address. -/
def sampleState : SystemState :=
  ⟨[⟨"u@d", "o", 0, 5⟩],
   [⟨"u@d", "m1", "s", "subj", 1, "k1"⟩],
   [⟨"p@d", "ext@x", "u@d"⟩],
   ["k1"]⟩

/-! ## Theorems -/

/-! ### Helper lemmas -/

theorem filter_idem {α : Type} (p : α → Bool) (l : List α) :
    (l.filter p).filter p = l.filter p := by
  induction l with
  | nil => rfl
  | cons x xs ih => cases hp : p x <;> simp [List.filter_cons, hp, ih]

theorem filter_of_forall {α : Type} (p : α → Bool) (l : List α)
    (h : ∀ x ∈ l, p x = true) : l.filter p = l := by
  induction l with
  | nil => rfl
  | cons x xs ih =>
    have hx := h x (List.mem_cons_self x xs)
    simp only [List.filter_cons, hx, if_true]
    exact congrArg (x :: ·) (ih fun y hy => h y (List.mem_cons_of_mem x hy))

theorem uniqueAddrs_cons (r : AddressRecord) (rest : List AddressRecord) :
    uniqueAddrs (r :: rest) =
      ((findAddr rest r.address).isNone && uniqueAddrs rest) := rfl

theorem findAddr_deleteAddr (reg : List AddressRecord) (b a : String) :
    findAddr (deleteAddr reg b) a = if a = b then none else findAddr reg a := by
  induction reg with
  | nil => simp [deleteAddr, findAddr]
  | cons r rest ih =>
    by_cases hb : r.address = b
    · simp only [deleteAddr, hb, beq_self_eq_true, if_true, ih]
      by_cases hab : a = b
      · simp [hab]
      · have hra : (r.address == a) = false := by
          rw [hb]
          exact beq_eq_false_iff_ne.mpr fun h => hab h.symm
        simp [findAddr, hab, hra]
    · have hb2 : (r.address == b) = false := beq_eq_false_iff_ne.mpr hb
      simp only [deleteAddr, hb2, Bool.false_eq_true, if_false, findAddr, ih]
      by_cases hra : (r.address == a) = true
      · have hab : ¬ a = b := by
          intro h
          exact hb (h ▸ eq_of_beq hra)
        simp [hra, hab]
      · simp [hra]

theorem uniqueAddrs_deleteAddr (reg : List AddressRecord) (b : String)
    (h : uniqueAddrs reg = true) : uniqueAddrs (deleteAddr reg b) = true := by
  induction reg with
  | nil => exact h
  | cons r rest ih =>
    rw [uniqueAddrs_cons, Bool.and_eq_true] at h
    by_cases hb : r.address = b
    · simp only [deleteAddr, hb, beq_self_eq_true, if_true]
      exact ih h.2
    · have hb2 : (r.address == b) = false := beq_eq_false_iff_ne.mpr hb
      simp only [deleteAddr, hb2, Bool.false_eq_true, if_false,
        uniqueAddrs_cons, Bool.and_eq_true]
      refine ⟨?_, ih h.2⟩
      rw [findAddr_deleteAddr]
      by_cases hab : r.address = b
      · exact absurd hab hb
      · simp only [hab, if_false]
        exact h.1

theorem findAddr_extendTtl (reg : List AddressRecord) (b : String) (n : Nat)
    (a : String) :
    findAddr (extendTtl reg b n) a =
      (findAddr reg a).map fun r =>
        if r.address = b then { r with expiresAt := r.expiresAt + n } else r := by
  induction reg with
  | nil => simp [extendTtl, findAddr]
  | cons r rest ih =>
    by_cases hb : r.address = b
    · subst hb
      by_cases hra : r.address = a
      · subst hra
        simp [extendTtl, findAddr]
      · have hra2 : (r.address == a) = false := beq_eq_false_iff_ne.mpr hra
        simp [extendTtl, findAddr, hra2, ih]
    · have hb2 : (r.address == b) = false := beq_eq_false_iff_ne.mpr hb
      simp only [extendTtl, hb2, Bool.false_eq_true, if_false]
      by_cases hra : r.address = a
      · have hra2 : (r.address == a) = true := beq_iff_eq.mpr hra
        simp [findAddr, hra2, hb]
      · have hra2 : (r.address == a) = false := beq_eq_false_iff_ne.mpr hra
        simp [findAddr, hra2, ih]

theorem uniqueAddrs_extendTtl (reg : List AddressRecord) (b : String) (n : Nat)
    (h : uniqueAddrs reg = true) : uniqueAddrs (extendTtl reg b n) = true := by
  induction reg with
  | nil => exact h
  | cons r rest ih =>
    rw [uniqueAddrs_cons, Bool.and_eq_true] at h
    by_cases hb : r.address = b
    · subst hb
      simp only [extendTtl, beq_self_eq_true, if_true, uniqueAddrs_cons,
        Bool.and_eq_true]
      refine ⟨?_, ih h.2⟩
      rw [findAddr_extendTtl]
      have : findAddr rest r.address = none := Option.isNone_iff_eq_none.mp h.1
      simp [this]
    · have hb2 : (r.address == b) = false := beq_eq_false_iff_ne.mpr hb
      simp only [extendTtl, hb2, Bool.false_eq_true, if_false, uniqueAddrs_cons,
        Bool.and_eq_true]
      refine ⟨?_, ih h.2⟩
      rw [findAddr_extendTtl]
      have : findAddr rest r.address = none := Option.isNone_iff_eq_none.mp h.1
      simp [this]

/-- C1: every inbound message to the email domain first passes through the
intake-check Lambda, which is the first action of the receipt rule and is
invoked request-response (synchronously); in the end-to-end trace the
filter invocation strictly precedes both the raw-content deposit and the
pipeline notification, and a rejected message produces only the filter
invocation, so it never reaches the Mail Storage Pipeline. -/
theorem claim1_intake_filter_gates_flow :
    receiptRuleActions.head? =
      some (.lambdaAction .incomingMailCheck .requestResponse) ∧
    (∀ accept isProxy : Bool,
      (mailFlowTrace accept isProxy).head? = some .filterInvoked) ∧
    (∀ isProxy : Bool, mailFlowTrace false isProxy = [.filterInvoked]) ∧
    (∀ isProxy : Bool,
      (mailFlowTrace true isProxy).indexOf .filterInvoked <
        (mailFlowTrace true isProxy).indexOf .rawStored ∧
      (mailFlowTrace true isProxy).indexOf .filterInvoked <
        (mailFlowTrace true isProxy).indexOf .pipelineNotified) := by
  refine ⟨rfl, ?_, ?_, ?_⟩
  · intro accept isProxy
    cases accept <;> cases isProxy <;> decide
  · intro isProxy
    cases isProxy <;> decide
  · intro isProxy
    cases isProxy <;> exact ⟨by decide, by decide⟩

/-- C2: whenever the end-to-end trace of an inbound message contains a
forwarding attempt, the raw content was already deposited into the bucket
at a strictly earlier position of the trace, so a forwarding failure can
never lose the message. -/
theorem claim2_raw_stored_before_forward (accept isProxy : Bool)
    (h : (mailFlowTrace accept isProxy).contains .forwardAttempted = true) :
    (mailFlowTrace accept isProxy).contains .rawStored = true ∧
    (mailFlowTrace accept isProxy).indexOf .rawStored <
      (mailFlowTrace accept isProxy).indexOf .forwardAttempted := by
  cases accept <;> cases isProxy <;> revert h <;> decide

/-- Witness for C2 at the accepted reply-proxy message, where a forward
is attempted. -/
theorem claim2_witness :
    (mailFlowTrace true true).contains .forwardAttempted = true ∧
    ((mailFlowTrace true true).contains .rawStored = true ∧
      (mailFlowTrace true true).indexOf .rawStored <
        (mailFlowTrace true true).indexOf .forwardAttempted) :=
  ⟨by decide, claim2_raw_stored_before_forward true true (by decide)⟩

theorem deleteAddr_idem (reg : List AddressRecord) (a : String) :
    deleteAddr (deleteAddr reg a) a = deleteAddr reg a := by
  induction reg with
  | nil => rfl
  | cons r rest ih =>
    by_cases h : r.address = a
    · simp [deleteAddr, beq_iff_eq.mpr h, ih]
    · have h2 : (r.address == a) = false := beq_eq_false_iff_ne.mpr h
      simp [deleteAddr, h2, ih]

theorem emails_any_deleted (emails : List StoredEmail) (a k : String) :
    ((emails.filter fun e => !(e.destination == a)).any
      fun e => e.destination == a && e.rawContentRef == k) = false := by
  induction emails with
  | nil => rfl
  | cons e rest ih =>
    cases hd : (e.destination == a) <;> simp [List.filter_cons, hd, ih]

theorem cascade_eq (s : SystemState) (a : String) :
    cascade s a =
      deleteAddressStep (deleteByParent (deleteAllEmails s a) a) a := rfl

theorem cascade_addresses (s : SystemState) (a : String) :
    (cascade s a).addresses = deleteAddr s.addresses a := rfl

theorem cascade_emails (s : SystemState) (a : String) :
    (cascade s a).emails = s.emails.filter fun e => !(e.destination == a) := rfl

theorem cascade_replyAddresses (s : SystemState) (a : String) :
    (cascade s a).replyAddresses =
      s.replyAddresses.filter fun p => !(p.parentDisposableAddress == a) := rfl

theorem cascade_bucket (s : SystemState) (a : String) :
    (cascade s a).bucket =
      s.bucket.filter fun k =>
        !(s.emails.any fun e => e.destination == a && e.rawContentRef == k) := rfl

/-- C3: the per-address sweep cascade deletes the Stored Email rows and
raw content first, then the reply-proxy mappings, then the address record
itself; after any strict prefix of the cascade the address record is
still present, and re-running the full cascade from any prefix reaches
the same final state, so a crash mid-sweep is repaired by the next run. -/
theorem claim3_sweeper_cascade (s : SystemState) (a : String)
    (r : AddressRecord) (hr : findAddr s.addresses a = some r) :
    cascade s a =
      deleteAddressStep (deleteByParent (deleteAllEmails s a) a) a ∧
    (∀ k, k < 3 → findAddr (cascadePrefix s a k).addresses a = some r) ∧
    (∀ k, cascade (cascadePrefix s a k) a = cascade s a) := by
  refine ⟨rfl, ?_, ?_⟩
  · intro k hk
    rcases k with _ | _ | _ | k
    · exact hr
    · exact hr
    · exact hr
    · exact absurd hk (by omega)
  · intro k
    rcases k with _ | _ | _ | k
    · rfl
    · apply SystemState.ext
      · rfl
      · exact filter_idem _ _
      · rfl
      · exact filter_of_forall _ _ fun x _ => by
          show (!((s.emails.filter fun e => !(e.destination == a)).any
            fun e => e.destination == a && e.rawContentRef == x)) = true
          rw [emails_any_deleted]
          rfl
    · apply SystemState.ext
      · rfl
      · exact filter_idem _ _
      · exact filter_idem _ _
      · exact filter_of_forall _ _ fun x _ => by
          show (!((s.emails.filter fun e => !(e.destination == a)).any
            fun e => e.destination == a && e.rawContentRef == x)) = true
          rw [emails_any_deleted]
          rfl
    · apply SystemState.ext
      · exact deleteAddr_idem _ _
      · exact filter_idem _ _
      · exact filter_idem _ _
      · exact filter_of_forall _ _ fun x _ => by
          show (!((s.emails.filter fun e => !(e.destination == a)).any
            fun e => e.destination == a && e.rawContentRef == x)) = true
          rw [emails_any_deleted]
          rfl

/-- Witness for C3 at the concrete sample state and its single address. -/
theorem claim3_witness :
    findAddr sampleState.addresses "u@d" = some ⟨"u@d", "o", 0, 5⟩ ∧
    (cascade sampleState "u@d" =
        deleteAddressStep
          (deleteByParent (deleteAllEmails sampleState "u@d") "u@d") "u@d" ∧
      (∀ k, k < 3 →
        findAddr (cascadePrefix sampleState "u@d" k).addresses "u@d" =
          some ⟨"u@d", "o", 0, 5⟩) ∧
      (∀ k, cascade (cascadePrefix sampleState "u@d" k) "u@d" =
        cascade sampleState "u@d")) :=
  ⟨by decide,
    claim3_sweeper_cascade sampleState "u@d" ⟨"u@d", "o", 0, 5⟩ (by decide)⟩

/-- C4: a put whose (destination, messageId) pair already exists in the
emails table fails with Conflict and leaves the table, in particular the
existing row, untouched; a successful put preserves composite-key
uniqueness and every pre-existing row, so no two rows ever share a
(destination, messageId) pair. -/
theorem claim4_put_conflict (table : List StoredEmail) (e : StoredEmail)
    (huniq : uniqueEmailKeys table = true) :
    (∀ e0, findEmail table e.key = some e0 →
      put table e = .conflict ∧ putState table e = table ∧
      findEmail (putState table e) e.key = some e0) ∧
    (∀ t2, put table e = .ok t2 →
      uniqueEmailKeys t2 = true ∧
      findEmail t2 e.key = some e ∧
      ∀ e0, findEmail table e0.key = some e0 → findEmail t2 e0.key = some e0) := by
  constructor
  · intro e0 h0
    refine ⟨?_, ?_, ?_⟩ <;> simp [put, putState, h0]
  · intro t2 hok
    cases hfind : findEmail table e.key with
    | some e1 => simp [put, hfind] at hok
    | none =>
      have ht2 : t2 = e :: table := by
        simp [put, hfind] at hok
        exact hok.symm
      subst ht2
      refine ⟨?_, ?_, ?_⟩
      · simp [uniqueEmailKeys, hfind, huniq]
      · simp [findEmail]
      · intro e0 h0
        have hne : (e.key == e0.key) = false := by
          cases hk : (e.key == e0.key) with
          | false => rfl
          | true =>
            exfalso
            have hkeq : e.key = e0.key := eq_of_beq hk
            rw [hkeq, h0] at hfind
            exact Option.noConfusion hfind
        simp [findEmail, hne, h0]

/-- Witness for C4: a one-row table, a put of a row with the same key
conflicts and keeps the old row; a put of a row with a fresh key
succeeds and keeps both rows findable. -/
theorem claim4_witness :
    uniqueEmailKeys [⟨"a@d", "m1", "s", "hello", 4, "ref1"⟩] = true ∧
    ((∀ e0,
        findEmail [⟨"a@d", "m1", "s", "hello", 4, "ref1"⟩]
          (StoredEmail.key ⟨"a@d", "m1", "x", "again", 9, "ref2"⟩) = some e0 →
        put [⟨"a@d", "m1", "s", "hello", 4, "ref1"⟩]
            ⟨"a@d", "m1", "x", "again", 9, "ref2"⟩ = .conflict ∧
        putState [⟨"a@d", "m1", "s", "hello", 4, "ref1"⟩]
            ⟨"a@d", "m1", "x", "again", 9, "ref2"⟩ =
          [⟨"a@d", "m1", "s", "hello", 4, "ref1"⟩] ∧
        findEmail
            (putState [⟨"a@d", "m1", "s", "hello", 4, "ref1"⟩]
              ⟨"a@d", "m1", "x", "again", 9, "ref2"⟩)
            (StoredEmail.key ⟨"a@d", "m1", "x", "again", 9, "ref2"⟩) = some e0) ∧
      ∀ t2,
        put [⟨"a@d", "m1", "s", "hello", 4, "ref1"⟩]
            ⟨"a@d", "m1", "x", "again", 9, "ref2"⟩ = .ok t2 →
        uniqueEmailKeys t2 = true ∧
        findEmail t2 (StoredEmail.key ⟨"a@d", "m1", "x", "again", 9, "ref2"⟩) =
          some ⟨"a@d", "m1", "x", "again", 9, "ref2"⟩ ∧
        ∀ e0,
          findEmail [⟨"a@d", "m1", "s", "hello", 4, "ref1"⟩]
              (StoredEmail.key e0) = some e0 →
          findEmail t2 (StoredEmail.key e0) = some e0) :=
  ⟨by decide,
    claim4_put_conflict [⟨"a@d", "m1", "s", "hello", 4, "ref1"⟩]
      ⟨"a@d", "m1", "x", "again", 9, "ref2"⟩ (by decide)⟩

/-- C6: with a domain constraint matching the configured domain and a
collision-free local part, create succeeds with a record under the
constrained domain, owned by the caller, created now and expiring at
createdAt plus the configured mailbox TTL; it also returns the full
current list of records owned by the caller. -/
theorem claim6_create (cfg : Config) (reg : List AddressRecord)
    (owner constraint localPart : String) (now : Nat)
    (hdom : constraint = cfg.domain)
    (hfresh : findAddr reg (localPart ++ "@" ++ cfg.domain) = none) :
    ∃ record owned reg2,
      create cfg reg owner constraint localPart now = .ok record owned reg2 ∧
      record.address = localPart ++ "@" ++ constraint ∧
      record.ownerToken = owner ∧
      record.createdAt = now ∧
      record.expiresAt = record.createdAt + cfg.mailboxTtl ∧
      reg2 = record :: reg ∧
      (∀ r, r ∈ owned ↔ r ∈ reg2 ∧ r.ownerToken = owner) := by
  subst hdom
  refine ⟨⟨localPart ++ "@" ++ cfg.domain, owner, now, now + cfg.mailboxTtl⟩,
    ((⟨localPart ++ "@" ++ cfg.domain, owner, now, now + cfg.mailboxTtl⟩ : AddressRecord) ::
        reg).filter (fun r => r.ownerToken == owner),
    ⟨localPart ++ "@" ++ cfg.domain, owner, now, now + cfg.mailboxTtl⟩ :: reg,
    ?_, rfl, rfl, rfl, rfl, rfl, ?_⟩
  · simp [create, hfresh]
  · intro r
    simp only [List.mem_filter, List.mem_cons, beq_iff_eq]

/-- Witness for C6: an empty registry, the stack configuration and a
concrete local part. -/
theorem claim6_witness :
    "" = stackConfig.domain ∧
    findAddr [] ("user123" ++ "@" ++ stackConfig.domain) = none ∧
    (∃ record owned reg2,
      create stackConfig [] "owner1" "" "user123" 7 = .ok record owned reg2 ∧
      record.address = "user123" ++ "@" ++ "" ∧
      record.ownerToken = "owner1" ∧
      record.createdAt = 7 ∧
      record.expiresAt = record.createdAt + stackConfig.mailboxTtl ∧
      reg2 = record :: [] ∧
      (∀ r, r ∈ owned ↔ r ∈ reg2 ∧ r.ownerToken = "owner1")) :=
  ⟨rfl, rfl, claim6_create stackConfig [] "owner1" "" "user123" 7 rfl rfl⟩

/-- C5: every mutating Address Registry operation preserves uniqueness of
the `address` key, and whenever a record is still present after an
operation its `expiresAt` has not decreased (a record can only disappear
by explicit deletion, never shrink its expiry). -/
theorem claim5_registry_invariants (cfg : Config) (reg : List AddressRecord)
    (op : RegOp) (huniq : uniqueAddrs reg = true) :
    uniqueAddrs (applyRegOp cfg reg op) = true ∧
    ∀ a r r2, findAddr reg a = some r →
      findAddr (applyRegOp cfg reg op) a = some r2 →
      r.expiresAt ≤ r2.expiresAt := by
  cases op with
  | createOp owner constraint localPart now =>
    by_cases hc : constraint = cfg.domain
    · cases hf : findAddr reg (localPart ++ "@" ++ cfg.domain) with
      | some r0 =>
        have happ : applyRegOp cfg reg (.createOp owner constraint localPart now) = reg := by
          simp [applyRegOp, create, beq_iff_eq.mpr hc, hf]
        rw [happ]
        refine ⟨huniq, fun a r r2 h1 h2 => ?_⟩
        rw [h1] at h2
        exact le_of_eq (congrArg AddressRecord.expiresAt (Option.some.inj h2))
      | none =>
        have happ : applyRegOp cfg reg (.createOp owner constraint localPart now) =
            (⟨localPart ++ "@" ++ cfg.domain, owner, now, now + cfg.mailboxTtl⟩ :
              AddressRecord) :: reg := by
          simp [applyRegOp, create, beq_iff_eq.mpr hc, hf]
        rw [happ]
        constructor
        · rw [uniqueAddrs_cons, hf]
          simpa using huniq
        · intro a r r2 h1 h2
          by_cases hra : (localPart ++ "@" ++ cfg.domain) = a
          · rw [hra, h1] at hf
            exact Option.noConfusion hf
          · have hra2 : ((localPart ++ "@" ++ cfg.domain) == a) = false :=
              beq_eq_false_iff_ne.mpr hra
            simp only [findAddr, hra2, Bool.false_eq_true, if_false] at h2
            rw [h1] at h2
            exact le_of_eq (congrArg AddressRecord.expiresAt (Option.some.inj h2))
    · have happ : applyRegOp cfg reg (.createOp owner constraint localPart now) = reg := by
        simp [applyRegOp, create, beq_eq_false_iff_ne.mpr hc]
      rw [happ]
      refine ⟨huniq, fun a r r2 h1 h2 => ?_⟩
      rw [h1] at h2
      exact le_of_eq (congrArg AddressRecord.expiresAt (Option.some.inj h2))
  | updateOp a0 s =>
    cases hfind : findAddr reg a0 with
    | none =>
      have happ : applyRegOp cfg reg (.updateOp a0 s) = reg := by
        simp [applyRegOp, updateSettings, hfind]
      rw [happ]
      refine ⟨huniq, fun a r r2 h1 h2 => ?_⟩
      rw [h1] at h2
      exact le_of_eq (congrArg AddressRecord.expiresAt (Option.some.inj h2))
    | some r0 =>
      cases s with
      | extendTtlBy n =>
        have happ : applyRegOp cfg reg (.updateOp a0 (.extendTtlBy n)) =
            extendTtl reg a0 n := by
          simp [applyRegOp, updateSettings, hfind]
        rw [happ]
        refine ⟨uniqueAddrs_extendTtl reg a0 n huniq, fun a r r2 h1 h2 => ?_⟩
        rw [findAddr_extendTtl, h1] at h2
        simp only [Option.map_some'] at h2
        have h3 := Option.some.inj h2
        by_cases hcond : r.address = a0
        · rw [if_pos hcond] at h3
          rw [← h3]
          exact Nat.le_add_right _ _
        · rw [if_neg hcond] at h3
          exact le_of_eq (congrArg AddressRecord.expiresAt h3)
      | remove =>
        have happ : applyRegOp cfg reg (.updateOp a0 .remove) =
            deleteAddr reg a0 := by
          simp [applyRegOp, updateSettings, hfind]
        rw [happ]
        refine ⟨uniqueAddrs_deleteAddr reg a0 huniq, fun a r r2 h1 h2 => ?_⟩
        rw [findAddr_deleteAddr] at h2
        by_cases hab : a = a0
        · rw [if_pos hab] at h2
          exact Option.noConfusion h2
        · rw [if_neg hab, h1] at h2
          exact le_of_eq (congrArg AddressRecord.expiresAt (Option.some.inj h2))
  | deleteOp a0 =>
    have happ : applyRegOp cfg reg (.deleteOp a0) = deleteAddr reg a0 := rfl
    rw [happ]
    refine ⟨uniqueAddrs_deleteAddr reg a0 huniq, fun a r r2 h1 h2 => ?_⟩
    rw [findAddr_deleteAddr] at h2
    by_cases hab : a = a0
    · rw [if_pos hab] at h2
      exact Option.noConfusion h2
    · rw [if_neg hab, h1] at h2
      exact le_of_eq (congrArg AddressRecord.expiresAt (Option.some.inj h2))

/-- Witness for C5: a one-record registry and a TTL extension. -/
theorem claim5_witness :
    uniqueAddrs [⟨"u@d", "o", 0, 5⟩] = true ∧
    (uniqueAddrs (applyRegOp stackConfig [⟨"u@d", "o", 0, 5⟩]
        (.updateOp "u@d" (.extendTtlBy 3))) = true ∧
      ∀ a r r2, findAddr [⟨"u@d", "o", 0, 5⟩] a = some r →
        findAddr (applyRegOp stackConfig [⟨"u@d", "o", 0, 5⟩]
          (.updateOp "u@d" (.extendTtlBy 3))) a = some r2 →
        r.expiresAt ≤ r2.expiresAt) :=
  ⟨by decide,
    claim5_registry_invariants stackConfig [⟨"u@d", "o", 0, 5⟩]
      (.updateOp "u@d" (.extendTtlBy 3)) (by decide)⟩

/-- C7: the gateway declares exactly five Lambda-integration endpoints,
exactly the five of the spec, each backed by exactly one handler; the
(method, path) pairs are pairwise distinct and so are the five handlers. -/
theorem claim7_api_surface :
    authorisingApi.routes =
      [ ⟨.get, ["create"], .createEmail, none⟩,
        ⟨.get, ["{destination}"], .getEmailsList, none⟩,
        ⟨.post, ["{destination}"], .changeAddressSettings, none⟩,
        ⟨.get, ["{destination}", "{messageId}"], .getEmailFile, none⟩,
        ⟨.post, ["send"], .sendEmail, none⟩ ] ∧
    authorisingApi.routes.length = 5 ∧
    (authorisingApi.routes.map fun r => (r.method, r.path)).Nodup ∧
    (authorisingApi.routes.map Route.handler).Nodup := by
  refine ⟨rfl, rfl, ?_, ?_⟩ <;> decide

/-- C8: the sweeper is driven by the declared EventBridge rule whose
schedule expression is the constant rate of 30 minutes targeting the
cleanup handler, and the firing decision of a constant-rate schedule is
independent of the backing state (it fires at every multiple of the
rate, whatever the tables and bucket hold). -/
theorem claim8_cleanup_schedule :
    cleanupRule.scheduleExpression = rateExpressionMinutes 30 ∧
    cleanupRule.target = Handler.cleanUp ∧
    (∀ m s1 s2, scheduleFires 30 m s1 = scheduleFires 30 m s2) ∧
    (∀ k s, scheduleFires 30 (30 * k) s = true) := by
  refine ⟨rfl, rfl, fun m s1 s2 => rfl, fun k s => ?_⟩
  simp [scheduleFires, Nat.mul_mod_right]

/-- C9: the intake-check Lambda holds exactly two grants, read-only access
to the addresses and reply-addresses tables; it can write to no resource,
and therefore any run of it that respects its grants leaves the entire
backing state (all three tables and the bucket) unchanged. -/
theorem claim9_intake_filter_readonly :
    (grants.filter fun g => g.grantee == Handler.incomingMailCheck) =
      [ ⟨.incomingMailCheck, .addressesTable, .readData⟩,
        ⟨.incomingMailCheck, .replyAddressesTable, .readData⟩ ] ∧
    (∀ r, canWrite Handler.incomingMailCheck r = false) ∧
    (∀ (ops : List WriteOp) (s : SystemState),
      permittedRun Handler.incomingMailCheck ops = true →
        applyWrites s ops = s) := by
  refine ⟨by decide, ?_, ?_⟩
  · intro r
    cases r <;> decide
  · intro ops s h
    cases ops with
    | nil => rfl
    | cons op rest =>
      exfalso
      simp only [permittedRun, List.all_cons, Bool.and_eq_true] at h
      have h2 : canWrite Handler.incomingMailCheck op.target = false := by
        cases op <;> simp only [WriteOp.target] <;> decide
      rw [h.1] at h2
      exact Bool.noConfusion h2

/-- Witness for C9: the empty run is permitted and leaves the empty state
unchanged. -/
theorem claim9_witness :
    permittedRun Handler.incomingMailCheck [] = true ∧
    applyWrites ⟨[], [], [], []⟩ [] = ⟨[], [], [], []⟩ :=
  ⟨by decide, claim9_intake_filter_readonly.2.2 [] ⟨[], [], [], []⟩ (by decide)⟩

/-- C10: the default method options of the gateway attach the Cognito
user-pool authorizer, whose results cache TTL is zero seconds, and every
one of the five declared endpoints (none of which passes its own
options) therefore requires Cognito authorization with no caching. -/
theorem claim10_every_endpoint_authorized :
    authorisingApi.defaultMethodOptions =
      ⟨AuthorizationType.cognito, cognitoAuthorizer⟩ ∧
    cognitoAuthorizer.resultsCacheTtlSeconds = 0 ∧
    authorisingApi.routes.length = 5 ∧
    (authorisingApi.routes.all fun r =>
      ((effectiveOptions authorisingApi r).authorizationType ==
          AuthorizationType.cognito) &&
        ((effectiveOptions authorisingApi r).authorizer.resultsCacheTtlSeconds
          == 0)) = true := by
  exact ⟨rfl, rfl, rfl, by decide⟩

end DisposableEmail
